import Mathlib

/-!
# Complex_without_sqrt

A shallow embedding of `CGAL/Complex_without_sqrt.h`
(package `Hyperbolic_surface_triangulation_2`): complex numbers over a field
`FT`, their arithmetic, comparison, two-line text format, and the cross-ratio
functions, together with the properties stated about them.

Conventions of the embedding.
* The template parameter `FT` is a type carrying Mathlib's `Field` structure and
  decidable equality. `FT(0)` is `0`.
* The field's division is partial: dividing by the additive identity is a
  failure raised by the field (`field_div`). Every function of the header that
  divides therefore returns `Except Field_error _`.
* The field's stream output and its constructor from `std::string` are
  parameters `to_text` and `from_text`.
* Text is `List Char`; an input stream is its unread characters together with
  its `eofbit` and `failbit`.
-/

namespace CGAL

/-! ## The field's partial division -/

/-- The failure a field raises when asked to divide by its additive identity. -/
inductive Field_error where
  | division_by_zero
  deriving DecidableEq, Repr

/-- Modelled from the spec: the division operator of the external field type `FT`
(spec 4.1: "division, with division by the additive identity being a failure
condition propagated from F"). It fails when the divisor is zero and is the
field's quotient otherwise. -/
def field_div {FT : Type*} [Field FT] [DecidableEq FT] (x y : FT) : Except Field_error FT :=
  if y = 0 then Except.error Field_error.division_by_zero else Except.ok (x / y)

/-! ## The class `Complex_without_sqrt<FT>` -/

/-- The class `Complex_without_sqrt<FT>`: the two private members `_real`, `_imag`. -/
structure Complex_without_sqrt (FT : Type*) where
  _real : FT
  _imag : FT
  deriving DecidableEq, Repr

namespace Complex_without_sqrt

variable {FT : Type*}

/-- Default constructor `Complex_without_sqrt()`: both members are `FT(0)`. -/
def mk0 [Field FT] : Complex_without_sqrt FT :=
  { _real := 0, _imag := 0 }

/-- Constructor `Complex_without_sqrt(const FT& real)`: the imaginary part is `FT(0)`. -/
def mk1 [Field FT] (real : FT) : Complex_without_sqrt FT :=
  { _real := real, _imag := 0 }

/-- Constructor `Complex_without_sqrt(const FT& real, const FT& imag)`. -/
def mk2 (real imag : FT) : Complex_without_sqrt FT :=
  { _real := real, _imag := imag }

/-- Member `set_real`: replaces `_real`, keeps `_imag`. -/
def set_real (z : Complex_without_sqrt FT) (real : FT) : Complex_without_sqrt FT :=
  { z with _real := real }

/-- Member `set_imag`: replaces `_imag`, keeps `_real`. -/
def set_imag (z : Complex_without_sqrt FT) (imag : FT) : Complex_without_sqrt FT :=
  { z with _imag := imag }

/-- Member `real()`. -/
def real (z : Complex_without_sqrt FT) : FT := z._real

/-- Member `imag()`. -/
def imag (z : Complex_without_sqrt FT) : FT := z._imag

/-- Member `squared_modulus()`: `_real*_real + _imag*_imag`. -/
def squared_modulus [Field FT] (z : Complex_without_sqrt FT) : FT :=
  z._real * z._real + z._imag * z._imag

/-- Member `conjugate()`: `(_real, -_imag)`. -/
def conjugate [Field FT] (z : Complex_without_sqrt FT) : Complex_without_sqrt FT :=
  mk2 z._real (-z._imag)

/-- Member `operator+`. -/
def add [Field FT] (z other : Complex_without_sqrt FT) : Complex_without_sqrt FT :=
  mk2 (z._real + other.real) (z._imag + other.imag)

/-- Member binary `operator-`. -/
def subtract [Field FT] (z other : Complex_without_sqrt FT) : Complex_without_sqrt FT :=
  mk2 (z._real - other.real) (z._imag - other.imag)

/-- Member unary `operator-`. -/
def negate [Field FT] (z : Complex_without_sqrt FT) : Complex_without_sqrt FT :=
  mk2 (-z._real) (-z._imag)

/-- Member `operator*`. -/
def multiply [Field FT] (z other : Complex_without_sqrt FT) : Complex_without_sqrt FT :=
  mk2 (z._real * other.real - z._imag * other.imag) (z._real * other.imag + z._imag * other.real)

/-- Member `operator/`: `m2 = other.squared_modulus()`, then
`Complex_without_sqrt(_real/m2, _imag/m2) * other.conjugate()`. Both field
divisions are by `m2`; either one failing makes the whole operation fail. -/
def divide [Field FT] [DecidableEq FT] (z other : Complex_without_sqrt FT) :
    Except Field_error (Complex_without_sqrt FT) :=
  let m2 := other.squared_modulus
  match field_div z._real m2 with
  | Except.error e => Except.error e
  | Except.ok r =>
    match field_div z._imag m2 with
    | Except.error e => Except.error e
    | Except.ok i => Except.ok (multiply (mk2 r i) other.conjugate)

end Complex_without_sqrt

open Complex_without_sqrt

variable {FT : Type*}

/-- Free `operator==`: both components equal under the field's equality. -/
def equal [DecidableEq FT] (z1 z2 : Complex_without_sqrt FT) : Bool :=
  decide (z1.real = z2.real) && decide (z1.imag = z2.imag)

/-- Free `operator!=`: `!operator==(z1, z2)`. -/
def not_equal [DecidableEq FT] (z1 z2 : Complex_without_sqrt FT) : Bool :=
  !(equal z1 z2)

/-! ## Cross ratio -/

/-- The function `cross_ratio`: `(d-b)*(c-a) / ((d-a)*(c-b))`. -/
def cross_ratio [Field FT] [DecidableEq FT] (a b c d : Complex_without_sqrt FT) :
    Except Field_error (Complex_without_sqrt FT) :=
  divide (multiply (subtract d b) (subtract c a)) (multiply (subtract d a) (subtract c b))

/-- The function `fourth_point_from_cross_ratio`:
`( cratio*a*(c-b) + b*(a-c) ) / ( cratio*(c-b) + (a-c) )`, where `cratio*a*(c-b)`
associates to the left. -/
def fourth_point_from_cross_ratio [Field FT] [DecidableEq FT]
    (a b c cratio : Complex_without_sqrt FT) : Except Field_error (Complex_without_sqrt FT) :=
  divide
    (add (multiply (multiply cratio a) (subtract c b)) (multiply b (subtract a c)))
    (add (multiply cratio (subtract c b)) (subtract a c))

/-! ## Text format -/

/-- The part of a `std::istream` the header depends on: the characters not yet
read, and the state bits `eofbit` and `failbit`. -/
structure istream where
  buf : List Char
  eofbit : Bool
  failbit : Bool
  deriving DecidableEq, Repr

/-- An input stream opened on a text, in the good state. -/
def istream.of_text (t : List Char) : istream :=
  { buf := t, eofbit := false, failbit := false }

/-- State test `good()` of a stream: no state bit is set. -/
def istream.good (s : istream) : Bool :=
  !s.eofbit && !s.failbit

/-- The extraction loop of `std::getline`: characters are taken up to the first
line terminator, which is taken as well and dropped. The result is the
characters stored, the characters left unread, and whether the terminator was
met (otherwise the end of the input was). -/
def getline_extract : List Char → List Char × List Char × Bool
  | [] => ([], [], false)
  | ch :: rest =>
    if ch = '\n' then ([], rest, true)
    else
      let r := getline_extract rest
      (ch :: r.1, r.2.1, r.2.2)

/-- The library call `std::getline(s, line)`. On a stream that is not good the
sentry sets `failbit` and `line` keeps its content. Otherwise `line` is erased
and refilled; reaching the end of the input sets `eofbit`, and `failbit` too
when nothing at all was extracted. -/
def getline (s : istream) (line : List Char) : istream × List Char :=
  if s.good then
    let r := getline_extract s.buf
    if r.2.2 then ({ s with buf := r.2.1 }, r.1)
    else ({ buf := r.2.1, eofbit := true, failbit := r.1.isEmpty }, r.1)
  else ({ s with failbit := true }, line)

/-- Free `operator<<`: `s << z.real() << std::endl << z.imag() << std::endl`.
The output stream is the text written so far; `to_text` is the field's own
stream output. -/
def serialize (to_text : FT → List Char) (s : List Char) (z : Complex_without_sqrt FT) :
    List Char :=
  s ++ to_text z.real ++ ['\n'] ++ to_text z.imag ++ ['\n']

/-- What the caller of `operator>>` observes afterwards: the exception thrown by
the field's text constructor, if any, the stream, and the object `z` that was
passed by reference. -/
structure Read_outcome (E : Type*) (FT : Type*) where
  thrown : Option E
  s : istream
  z : Complex_without_sqrt FT

/-- Free `operator>>`: `getline(s, line); z.set_real(FT(line)); getline(s, line);
z.set_imag(FT(line));`. The field's constructor from a string is `from_text`;
when it throws, the statements after it are not run. -/
def deserialize {E : Type*} (from_text : List Char → Except E FT) (s : istream)
    (z : Complex_without_sqrt FT) : Read_outcome E FT :=
  let line : List Char := []
  let g1 := getline s line
  match from_text g1.2 with
  | Except.error e => { thrown := some e, s := g1.1, z := z }
  | Except.ok r =>
    let z1 := z.set_real r
    let g2 := getline g1.1 g1.2
    match from_text g2.2 with
    | Except.error e => { thrown := some e, s := g2.1, z := z1 }
    | Except.ok i => { thrown := none, s := g2.1, z := z1.set_imag i }

/-! ## Sample field text formats

Small text formats for field elements, used to run the text functions on
concrete inputs. -/

/-- The failure of a field's text constructor on a malformed line. -/
inductive Parse_error where
  | malformed
  deriving DecidableEq, Repr

/-- A text constructor that accepts the one-character texts `0` and `1` and
rejects every other text. -/
def bit_from_text [Field FT] (t : List Char) : Except Parse_error FT :=
  if t = ['0'] then Except.ok 0
  else if t = ['1'] then Except.ok 1
  else Except.error Parse_error.malformed

/-- The text of an element of the two-element field: `0` or `1`. -/
def bit_to_text (v : ZMod 2) : List Char :=
  if v = 0 then ['0'] else ['1']

/-- A text format of the two-element field that ends every text with a line
terminator: `0` or `1` followed by the terminator. -/
def bit_line_to_text (v : ZMod 2) : List Char :=
  if v = 0 then ['0', '\n'] else ['1', '\n']

/-- The text constructor matching `bit_line_to_text`: it accepts exactly the two
texts that format produces. -/
def bit_line_from_text (t : List Char) : Except Parse_error (ZMod 2) :=
  if t = ['0', '\n'] then Except.ok 0
  else if t = ['1', '\n'] then Except.ok 1
  else Except.error Parse_error.malformed

/-! ## Ring structure carried by the operations

The operators of the class, read as the ring operations of
`Complex_without_sqrt FT`: zero is the default construction, one is the
construction from the field's one. -/

namespace Complex_without_sqrt

instance instZero [Field FT] : Zero (Complex_without_sqrt FT) := ⟨mk0⟩

instance instOne [Field FT] : One (Complex_without_sqrt FT) := ⟨mk1 1⟩

instance instAdd [Field FT] : Add (Complex_without_sqrt FT) := ⟨add⟩

instance instNeg [Field FT] : Neg (Complex_without_sqrt FT) := ⟨negate⟩

instance instSub [Field FT] : Sub (Complex_without_sqrt FT) := ⟨subtract⟩

instance instMul [Field FT] : Mul (Complex_without_sqrt FT) := ⟨multiply⟩

instance instCommRing [Field FT] : CommRing (Complex_without_sqrt FT) where
  add_assoc x y z := by
    show add (add x y) z = add x (add y z)
    simp [add, mk2, real, imag, add_assoc]
  zero_add x := by
    show add mk0 x = x
    simp [add, mk0, mk2, real, imag]
  add_zero x := by
    show add x mk0 = x
    simp [add, mk0, mk2, real, imag]
  nsmul := nsmulRec
  zsmul := zsmulRec
  neg_add_cancel x := by
    show add (negate x) x = mk0
    simp [add, negate, mk0, mk2, real, imag]
  add_comm x y := by
    show add x y = add y x
    simp [add, mk2, real, imag, add_comm]
  left_distrib x y z := by
    show multiply x (add y z) = add (multiply x y) (multiply x z)
    simp only [add, multiply, mk2, real, imag, Complex_without_sqrt.mk.injEq]
    constructor <;> ring
  right_distrib x y z := by
    show multiply (add x y) z = add (multiply x z) (multiply y z)
    simp only [add, multiply, mk2, real, imag, Complex_without_sqrt.mk.injEq]
    constructor <;> ring
  zero_mul x := by
    show multiply mk0 x = mk0
    simp [multiply, mk0, mk2, real, imag]
  mul_zero x := by
    show multiply x mk0 = mk0
    simp [multiply, mk0, mk2, real, imag]
  mul_assoc x y z := by
    show multiply (multiply x y) z = multiply x (multiply y z)
    simp only [multiply, mk2, real, imag, Complex_without_sqrt.mk.injEq]
    constructor <;> ring
  one_mul x := by
    show multiply (mk1 1) x = x
    simp [multiply, mk1, mk2, real, imag]
  mul_one x := by
    show multiply x (mk1 1) = x
    simp [multiply, mk1, mk2, real, imag]
  mul_comm x y := by
    show multiply x y = multiply y x
    simp only [multiply, mk2, real, imag, Complex_without_sqrt.mk.injEq]
    constructor <;> ring
  sub_eq_add_neg x y := by
    show subtract x y = add x (negate y)
    simp only [add, subtract, negate, mk2, real, imag, Complex_without_sqrt.mk.injEq]
    constructor <;> ring

end Complex_without_sqrt

end CGAL

namespace CGAL

open Complex_without_sqrt

variable {FT : Type*}

/-! ## Division as specified, Möbius maps, a field of five elements -/

/-- Division as the spec words it, `a * conjugate(b) / squared_modulus(b)`: the
complex product is formed first and each of its components is then divided by
`m2 = squared_modulus(b)`. -/
def divide_spec [Field FT] [DecidableEq FT] (a b : Complex_without_sqrt FT) :
    Except Field_error (Complex_without_sqrt FT) :=
  let p := multiply a b.conjugate
  let m2 := b.squared_modulus
  match field_div p.real m2 with
  | Except.error e => Except.error e
  | Except.ok r =>
    match field_div p.imag m2 with
    | Except.error e => Except.error e
    | Except.ok i => Except.ok (mk2 r i)

/-- The Möbius transformation `M(z) = (p*z + q) / (r*z + s)`, computed with the
operators of the class. -/
def mobius [Field FT] [DecidableEq FT] (p q r s z : Complex_without_sqrt FT) :
    Except Field_error (Complex_without_sqrt FT) :=
  divide (add (multiply p z) q) (add (multiply r z) s)

/-- Five is prime, so the integers modulo 5 are a field. -/
instance fact_prime_five : Fact (Nat.Prime 5) := ⟨by norm_num⟩

end CGAL

namespace CGAL

open Complex_without_sqrt

variable {FT : Type*}

/-! ## Expressions over the field's operations

The expressions of the header written as syntax trees whose only nodes are the
field's zero, addition, subtraction, negation, multiplication, division and
equality test. -/

/-- A field-valued expression: variables combined with the field's zero,
addition, subtraction, negation, multiplication and division. -/
inductive Field_expr where
  | zero
  | var (k : Nat)
  | add (s t : Field_expr)
  | sub (s t : Field_expr)
  | neg (s : Field_expr)
  | mul (s t : Field_expr)
  | div (s t : Field_expr)

/-- A truth-valued expression: equality tests of field-valued expressions,
combined with `&&` and `!`. -/
inductive Field_test where
  | eq (s t : Field_expr)
  | and (p q : Field_test)
  | not (p : Field_test)

/-- A complex-valued expression: one field-valued expression per component. -/
structure Complex_expr where
  re : Field_expr
  im : Field_expr

/-- Applies a binary field operation to two evaluated operands, left operand
first; a failed operand makes the result fail. -/
def apply2 {α β : Type*} (f : α → α → Except Field_error β) :
    Except Field_error α → Except Field_error α → Except Field_error β
  | Except.ok x, Except.ok y => f x y
  | Except.ok _, Except.error e => Except.error e
  | Except.error e, _ => Except.error e

/-- Applies a unary field operation to an evaluated operand. -/
def apply1 {α β : Type*} (f : α → β) : Except Field_error α → Except Field_error β
  | Except.ok x => Except.ok (f x)
  | Except.error e => Except.error e

/-- The value of a field-valued expression in a field, the variable `k` standing
for `env k`; its division is the field's partial division. -/
def Field_expr.eval [Field FT] [DecidableEq FT] (env : Nat → FT) :
    Field_expr → Except Field_error FT
  | Field_expr.zero => Except.ok 0
  | Field_expr.var k => Except.ok (env k)
  | Field_expr.add s t => apply2 (fun x y => Except.ok (x + y)) (s.eval env) (t.eval env)
  | Field_expr.sub s t => apply2 (fun x y => Except.ok (x - y)) (s.eval env) (t.eval env)
  | Field_expr.neg s => apply1 (fun x => -x) (s.eval env)
  | Field_expr.mul s t => apply2 (fun x y => Except.ok (x * y)) (s.eval env) (t.eval env)
  | Field_expr.div s t => apply2 field_div (s.eval env) (t.eval env)

/-- The value of a truth-valued expression. -/
def Field_test.eval [Field FT] [DecidableEq FT] (env : Nat → FT) :
    Field_test → Except Field_error Bool
  | Field_test.eq s t => apply2 (fun x y => Except.ok (decide (x = y))) (s.eval env) (t.eval env)
  | Field_test.and p q => apply2 (fun x y => Except.ok (x && y)) (p.eval env) (q.eval env)
  | Field_test.not p => apply1 (fun x => !x) (p.eval env)

/-- The value of a complex-valued expression: the real component is evaluated
first. -/
def Complex_expr.eval [Field FT] [DecidableEq FT] (env : Nat → FT) (z : Complex_expr) :
    Except Field_error (Complex_without_sqrt FT) :=
  apply2 (fun r i => Except.ok (mk2 r i)) (z.re.eval env) (z.im.eval env)

/-- The variables of the `k`-th complex argument: `2k` is its real component and
`2k + 1` its imaginary component. -/
def Complex_expr.arg (k : Nat) : Complex_expr :=
  { re := Field_expr.var (2 * k), im := Field_expr.var (2 * k + 1) }

/-- The expression of `squared_modulus()`. -/
def Complex_expr.squared_modulus (z : Complex_expr) : Field_expr :=
  Field_expr.add (Field_expr.mul z.re z.re) (Field_expr.mul z.im z.im)

/-- The expression of `conjugate()`. -/
def Complex_expr.conjugate (z : Complex_expr) : Complex_expr :=
  { re := z.re, im := Field_expr.neg z.im }

/-- The expression of `operator+`. -/
def Complex_expr.add (z other : Complex_expr) : Complex_expr :=
  { re := Field_expr.add z.re other.re, im := Field_expr.add z.im other.im }

/-- The expression of binary `operator-`. -/
def Complex_expr.subtract (z other : Complex_expr) : Complex_expr :=
  { re := Field_expr.sub z.re other.re, im := Field_expr.sub z.im other.im }

/-- The expression of unary `operator-`. -/
def Complex_expr.negate (z : Complex_expr) : Complex_expr :=
  { re := Field_expr.neg z.re, im := Field_expr.neg z.im }

/-- The expression of `operator*`. -/
def Complex_expr.multiply (z other : Complex_expr) : Complex_expr :=
  { re := Field_expr.sub (Field_expr.mul z.re other.re) (Field_expr.mul z.im other.im),
    im := Field_expr.add (Field_expr.mul z.re other.im) (Field_expr.mul z.im other.re) }

/-- The expression of `operator/`. -/
def Complex_expr.divide (z other : Complex_expr) : Complex_expr :=
  Complex_expr.multiply
    { re := Field_expr.div z.re other.squared_modulus,
      im := Field_expr.div z.im other.squared_modulus }
    other.conjugate

/-- The expression of `operator==`. -/
def Complex_expr.equal (z1 z2 : Complex_expr) : Field_test :=
  Field_test.and (Field_test.eq z1.re z2.re) (Field_test.eq z1.im z2.im)

/-- The expression of `operator!=`. -/
def Complex_expr.not_equal (z1 z2 : Complex_expr) : Field_test :=
  Field_test.not (Complex_expr.equal z1 z2)

/-- The expression of `cross_ratio`. -/
def Complex_expr.cross_ratio (a b c d : Complex_expr) : Complex_expr :=
  Complex_expr.divide ((d.subtract b).multiply (c.subtract a))
    ((d.subtract a).multiply (c.subtract b))

/-- The expression of `fourth_point_from_cross_ratio`. -/
def Complex_expr.fourth_point_from_cross_ratio (a b c cratio : Complex_expr) : Complex_expr :=
  Complex_expr.divide
    (((cratio.multiply a).multiply (c.subtract b)).add (b.multiply (a.subtract c)))
    ((cratio.multiply (c.subtract b)).add (a.subtract c))

/-- The assignment of variables for four complex arguments and two field
arguments: variables `0` to `7` are the components of `a`, `b`, `c`, `d`, and
variables `8`, `9` are `r`, `i`. -/
def env_of (a b c d : Complex_without_sqrt FT) (r i : FT) : Nat → FT
  | 0 => a._real
  | 1 => a._imag
  | 2 => b._real
  | 3 => b._imag
  | 4 => c._real
  | 5 => c._imag
  | 6 => d._real
  | 7 => d._imag
  | 8 => r
  | _ => i

end CGAL

namespace CGAL
open Complex_without_sqrt
variable {FT : Type*}

/-! ## Basic facts -/

theorem eq_iff_components (x y : Complex_without_sqrt FT) :
    x = y ↔ x._real = y._real ∧ x._imag = y._imag := by
  cases x; cases y; simp

theorem add_eq [Field FT] (x y : Complex_without_sqrt FT) : add x y = x + y := rfl

theorem subtract_eq [Field FT] (x y : Complex_without_sqrt FT) : subtract x y = x - y := rfl

theorem negate_eq [Field FT] (x : Complex_without_sqrt FT) : negate x = -x := rfl

theorem multiply_eq [Field FT] (x y : Complex_without_sqrt FT) : multiply x y = x * y := rfl

theorem mk0_eq [Field FT] : (mk0 : Complex_without_sqrt FT) = 0 := rfl

theorem zero_components [Field FT] :
    (0 : Complex_without_sqrt FT)._real = 0 ∧ (0 : Complex_without_sqrt FT)._imag = 0 :=
  ⟨rfl, rfl⟩

/-- The field division succeeds exactly on a nonzero divisor. -/
theorem field_div_ok [Field FT] [DecidableEq FT] (x y : FT) (h : y ≠ 0) :
    field_div x y = Except.ok (x / y) := by
  simp [field_div, h]

theorem field_div_zero [Field FT] [DecidableEq FT] (x : FT) :
    field_div x 0 = Except.error Field_error.division_by_zero := by
  simp [field_div]

/-- Division by a value of zero squared modulus fails. -/
theorem divide_of_sqmod_eq_zero [Field FT] [DecidableEq FT] (x y : Complex_without_sqrt FT)
    (h : y.squared_modulus = 0) : divide x y = Except.error Field_error.division_by_zero := by
  simp [divide, h, field_div]

/-- Division by a value of nonzero squared modulus returns the value computed by
the header's expression. -/
theorem divide_of_sqmod_ne_zero [Field FT] [DecidableEq FT] (x y : Complex_without_sqrt FT)
    (h : y.squared_modulus ≠ 0) :
    divide x y = Except.ok
      (multiply (mk2 (x._real / y.squared_modulus) (x._imag / y.squared_modulus)) y.conjugate) := by
  simp [divide, h, field_div]

/-- The quotient returned by `divide`, multiplied by the divisor, is the dividend. -/
theorem divide_mul_cancel [Field FT] [DecidableEq FT] (x y : Complex_without_sqrt FT)
    (h : y.squared_modulus ≠ 0) :
    ∃ q, divide x y = Except.ok q ∧ q * y = x := by
  refine ⟨_, divide_of_sqmod_ne_zero x y h, ?_⟩
  rw [← multiply_eq, eq_iff_components]
  have h2 : y._real * y._real + y._imag * y._imag ≠ 0 := h
  simp only [multiply, conjugate, mk2, real, imag, squared_modulus]
  constructor <;> field_simp <;> ring

/-- Over the rationals only the zero value has squared modulus zero. -/
theorem sqmod_eq_zero_iff_rat (y : Complex_without_sqrt ℚ) : y.squared_modulus = 0 ↔ y = 0 := by
  rw [eq_iff_components]
  constructor
  · intro h
    have h2 : y._real * y._real + y._imag * y._imag = 0 := h
    constructor
    · exact pow_eq_zero_iff (two_ne_zero) |>.mp (by nlinarith [mul_self_nonneg y._real, mul_self_nonneg y._imag])
    · exact pow_eq_zero_iff (two_ne_zero) |>.mp (by nlinarith [mul_self_nonneg y._real, mul_self_nonneg y._imag])
  · rintro ⟨h1, h2⟩
    show y._real * y._real + y._imag * y._imag = 0
    rw [h1, h2]; simp [zero_components]

theorem sqmod_mul [Field FT] (x y : Complex_without_sqrt FT) :
    (x * y).squared_modulus = x.squared_modulus * y.squared_modulus := by
  rw [← multiply_eq]
  simp only [multiply, mk2, real, imag, squared_modulus]
  ring

/-- Over the rationals a product is zero only when a factor is. -/
theorem mul_eq_zero_rat (x y : Complex_without_sqrt ℚ) (h : x * y = 0) : x = 0 ∨ y = 0 := by
  have h1 : (x * y).squared_modulus = 0 := (sqmod_eq_zero_iff_rat _).mpr h
  rw [sqmod_mul] at h1
  rcases mul_eq_zero.mp h1 with h2 | h2
  · exact Or.inl ((sqmod_eq_zero_iff_rat x).mp h2)
  · exact Or.inr ((sqmod_eq_zero_iff_rat y).mp h2)

theorem mul_ne_zero_rat (x y : Complex_without_sqrt ℚ) (hx : x ≠ 0) (hy : y ≠ 0) : x * y ≠ 0 := by
  intro h
  rcases mul_eq_zero_rat x y h with h1 | h1
  · exact hx h1
  · exact hy h1

/-- Over the rationals `divide` by a nonzero value succeeds, and its result is
the only solution `q` of `q * y = x`. -/
theorem divide_rat (x y : Complex_without_sqrt ℚ) (hy : y ≠ 0) :
    ∃ q, divide x y = Except.ok q ∧ q * y = x :=
  divide_mul_cancel x y (fun h => hy ((sqmod_eq_zero_iff_rat y).mp h))

theorem divide_rat_zero (x y : Complex_without_sqrt ℚ) (hy : y = 0) :
    divide x y = Except.error Field_error.division_by_zero :=
  divide_of_sqmod_eq_zero x y ((sqmod_eq_zero_iff_rat y).mpr hy)

theorem eq_of_mul_eq_mul_rat (p q k : Complex_without_sqrt ℚ) (hk : k ≠ 0) (h : p * k = q * k) :
    p = q := by
  have h1 : (p - q) * k = 0 := by rw [sub_mul, h, sub_self]
  rcases mul_eq_zero_rat _ _ h1 with h2 | h2
  · exact sub_eq_zero.mp h2
  · exact absurd h2 hk

end CGAL

namespace CGAL
open Complex_without_sqrt

/-! ## Division and the cross ratio over the rationals -/

/-- C1. Cross-ratio round trip over the rationals: when `a`, `b`, `c` are pairwise
distinct and `d` differs from `a`, `cross_ratio a b c d` succeeds with some value
`cr`, and `fourth_point_from_cross_ratio a b c cr` succeeds and returns `d`. -/
theorem cross_ratio_round_trip (a b c d : Complex_without_sqrt ℚ)
    (hab : a ≠ b) (hac : a ≠ c) (hbc : b ≠ c) (hda : d ≠ a) :
    ∃ cr, cross_ratio a b c d = Except.ok cr ∧
      fourth_point_from_cross_ratio a b c cr = Except.ok d ∧
      (∀ r, fourth_point_from_cross_ratio a b c cr = Except.ok r → equal r d = true) := by
  have hda0 : d - a ≠ 0 := sub_ne_zero.mpr hda
  have hcb0 : c - b ≠ 0 := sub_ne_zero.mpr (Ne.symm hbc)
  have hca0 : c - a ≠ 0 := sub_ne_zero.mpr (Ne.symm hac)
  have hab0 : a - b ≠ 0 := sub_ne_zero.mpr hab
  obtain ⟨cr, hcr, h1⟩ := divide_rat ((d - b) * (c - a)) ((d - a) * (c - b))
    (mul_ne_zero_rat _ _ hda0 hcb0)
  have hD : (cr * (c - b) + (a - c)) * (d - a) = (c - a) * (a - b) := by
    linear_combination h1
  have hD0 : cr * (c - b) + (a - c) ≠ 0 := by
    intro h
    rw [h, zero_mul] at hD
    exact mul_ne_zero_rat _ _ hca0 hab0 hD.symm
  obtain ⟨r, hr, h2⟩ := divide_rat (cr * a * (c - b) + b * (a - c)) (cr * (c - b) + (a - c)) hD0
  have hrd : r = d := by
    apply eq_of_mul_eq_mul_rat r d ((c - a) * (a - b)) (mul_ne_zero_rat _ _ hca0 hab0)
    linear_combination (d - a) * h2 + (a - r) * h1
  have hfp : fourth_point_from_cross_ratio a b c cr = Except.ok d := by
    rw [← hrd]; exact hr
  refine ⟨cr, hcr, hfp, ?_⟩
  intro r2 hr2
  rw [hfp] at hr2
  cases hr2
  simp [equal]

/-- C2. Over the rationals, when `a`, `b`, `c` are pairwise distinct and the
denominator `cratio*(c-b) + (a-c)` is not the zero value,
`fourth_point_from_cross_ratio a b c cratio` succeeds with a point `d` for which
`cross_ratio a b c d` succeeds and returns `cratio`. -/
theorem fourth_point_has_cross_ratio (a b c cratio : Complex_without_sqrt ℚ)
    (hab : a ≠ b) (hac : a ≠ c) (hbc : b ≠ c)
    (hden : add (multiply cratio (subtract c b)) (subtract a c) ≠ mk0) :
    ∃ d, fourth_point_from_cross_ratio a b c cratio = Except.ok d ∧
      cross_ratio a b c d = Except.ok cratio ∧
      (∀ r, cross_ratio a b c d = Except.ok r → equal r cratio = true) := by
  have hcb0 : c - b ≠ 0 := sub_ne_zero.mpr (Ne.symm hbc)
  have hac0 : a - c ≠ 0 := sub_ne_zero.mpr hac
  have hba0 : b - a ≠ 0 := sub_ne_zero.mpr (Ne.symm hab)
  have hD0 : cratio * (c - b) + (a - c) ≠ 0 := hden
  obtain ⟨d, hd, h2⟩ :=
    divide_rat (cratio * a * (c - b) + b * (a - c)) (cratio * (c - b) + (a - c)) hD0
  have hda : (d - a) * (cratio * (c - b) + (a - c)) = (b - a) * (a - c) := by
    linear_combination h2
  have hda0 : d - a ≠ 0 := by
    intro h
    rw [h, zero_mul] at hda
    exact mul_ne_zero_rat _ _ hba0 hac0 hda.symm
  have hK0 : (d - a) * (c - b) ≠ 0 := mul_ne_zero_rat _ _ hda0 hcb0
  obtain ⟨q, hq, h3⟩ := divide_rat ((d - b) * (c - a)) ((d - a) * (c - b)) hK0
  have hqc : q = cratio := by
    apply eq_of_mul_eq_mul_rat q cratio (((d - a) * (c - b)) * (cratio * (c - b) + (a - c)))
      (mul_ne_zero_rat _ _ hK0 hD0)
    linear_combination (cratio * (c - b) + (a - c)) * h3 + ((c - a) - cratio * (c - b)) * h2
  have hcr : cross_ratio a b c d = Except.ok cratio := by
    rw [← hqc]; exact hq
  refine ⟨d, hd, hcr, ?_⟩
  intro r hr
  rw [hcr] at hr
  cases hr
  simp [equal]

/-- C3. Division inverse over the rationals: for every `x` and every `y` other
than the zero value `(0, 0)`, `divide x y` succeeds and its result multiplied by
`y` is `x`. -/
theorem divide_inverse (x y : Complex_without_sqrt ℚ) (hy : y ≠ mk2 0 0) :
    ∃ q, divide x y = Except.ok q ∧ multiply q y = x ∧ equal (multiply q y) x = true := by
  obtain ⟨q, hq, h⟩ := divide_rat x y hy
  refine ⟨q, hq, h, ?_⟩
  rw [multiply_eq, h]
  simp [equal]


end CGAL

namespace CGAL
open Complex_without_sqrt

/-- Witness of C1: `a = 0`, `b = 1`, `c = 2`, `d = 3` (all real) has cross ratio
`4/3`, the fourth point for `4/3` is `3`, and the round trip holds there. -/
theorem cross_ratio_round_trip_witness :
    cross_ratio (mk1 (0 : ℚ)) (mk1 1) (mk1 2) (mk1 3) = Except.ok (mk1 (4 / 3)) ∧
    fourth_point_from_cross_ratio (mk1 (0 : ℚ)) (mk1 1) (mk1 2) (mk1 (4 / 3))
      = Except.ok (mk1 3) ∧
    ∃ cr, cross_ratio (mk1 (0 : ℚ)) (mk1 1) (mk1 2) (mk1 3) = Except.ok cr ∧
      fourth_point_from_cross_ratio (mk1 (0 : ℚ)) (mk1 1) (mk1 2) cr = Except.ok (mk1 3) ∧
      (∀ r, fourth_point_from_cross_ratio (mk1 (0 : ℚ)) (mk1 1) (mk1 2) cr = Except.ok r →
        equal r (mk1 3) = true) := by
  refine ⟨?_, ?_, cross_ratio_round_trip (mk1 0) (mk1 1) (mk1 2) (mk1 3)
    (by decide) (by decide) (by decide) (by decide)⟩
  · simp [cross_ratio, divide, field_div, multiply, subtract, conjugate, squared_modulus,
      mk1, mk2, real, imag]
    norm_num
  · simp [fourth_point_from_cross_ratio, divide, field_div, multiply, add, subtract, conjugate,
      squared_modulus, mk1, mk2, real, imag]
    norm_num

/-- Witness of C2 at `a = 0`, `b = 1`, `c = 2`, `cratio = 4/3`. -/
theorem fourth_point_has_cross_ratio_witness :
    ∃ d, fourth_point_from_cross_ratio (mk1 (0 : ℚ)) (mk1 1) (mk1 2) (mk1 (4 / 3))
        = Except.ok d ∧
      cross_ratio (mk1 (0 : ℚ)) (mk1 1) (mk1 2) d = Except.ok (mk1 (4 / 3)) ∧
      (∀ r, cross_ratio (mk1 (0 : ℚ)) (mk1 1) (mk1 2) d = Except.ok r →
        equal r (mk1 (4 / 3)) = true) :=
  fourth_point_has_cross_ratio (mk1 0) (mk1 1) (mk1 2) (mk1 (4 / 3))
    (by decide) (by decide) (by decide)
    (by simp [add, multiply, subtract, mk0, mk1, mk2, real, imag]; norm_num)

/-- Witness of C3 at `x = (1, 2)`, `y = (3, -1)`. -/
theorem divide_inverse_witness :
    ∃ q, divide (mk2 (1 : ℚ) 2) (mk2 3 (-1)) = Except.ok q ∧
      multiply q (mk2 3 (-1)) = mk2 1 2 ∧ equal (multiply q (mk2 3 (-1))) (mk2 1 2) = true :=
  divide_inverse (mk2 1 2) (mk2 3 (-1)) (by decide)

end CGAL

namespace CGAL
open Complex_without_sqrt

/-! ## Failure of the dividing operations -/

/-- C4. Over every field, `divide a b` fails with the field's division-by-zero
error exactly when `squared_modulus b` is the field's zero, and then it yields no
value; dividing by `(0, 0)` fails for every dividend, in particular
`divide (1, 0) (0, 0)` over the rationals fails. -/
theorem divide_fails_iff (FT : Type*) [Field FT] [DecidableEq FT]
    (a b : Complex_without_sqrt FT) :
    (divide a b = Except.error Field_error.division_by_zero ↔ b.squared_modulus = 0) ∧
    (b.squared_modulus = 0 → ∀ v, divide a b ≠ Except.ok v) ∧
    divide a (mk2 0 0) = Except.error Field_error.division_by_zero ∧
    divide mk0 (mk2 (0 : FT) 0) = Except.error Field_error.division_by_zero ∧
    divide (mk2 (1 : ℚ) 0) (mk2 0 0) = Except.error Field_error.division_by_zero := by
  refine ⟨⟨?_, divide_of_sqmod_eq_zero a b⟩, ?_, ?_, ?_, ?_⟩
  · intro h
    by_contra hne
    rw [divide_of_sqmod_ne_zero a b hne] at h
    cases h
  · intro h v hv
    rw [divide_of_sqmod_eq_zero a b h] at hv
    cases hv
  · exact divide_of_sqmod_eq_zero _ _ (by simp [squared_modulus, mk2])
  · exact divide_of_sqmod_eq_zero _ _ (by simp [squared_modulus, mk2])
  · exact divide_of_sqmod_eq_zero _ _ (by simp [squared_modulus, mk2])

/-- C5. Over the rationals `cross_ratio a b c d` fails with division by zero
exactly when `d = a` or `c = b`; otherwise it succeeds with the value of
`divide ((d-b)*(c-a)) ((d-a)*(c-b))`, which multiplied by `(d-a)*(c-b)` gives
`(d-b)*(c-a)`. -/
theorem cross_ratio_fails_iff (a b c d : Complex_without_sqrt ℚ) :
    (cross_ratio a b c d = Except.error Field_error.division_by_zero ↔ (d = a ∨ c = b)) ∧
    (¬ (d = a ∨ c = b) →
      ∃ q, cross_ratio a b c d = Except.ok q ∧
        divide (multiply (subtract d b) (subtract c a))
          (multiply (subtract d a) (subtract c b)) = Except.ok q ∧
        multiply q (multiply (subtract d a) (subtract c b))
          = multiply (subtract d b) (subtract c a)) := by
  have key : (d - a) * (c - b) = 0 ↔ (d = a ∨ c = b) := by
    constructor
    · intro h
      rcases mul_eq_zero_rat _ _ h with h1 | h1
      · exact Or.inl (sub_eq_zero.mp h1)
      · exact Or.inr (sub_eq_zero.mp h1)
    · rintro (h | h)
      · rw [h, sub_self, zero_mul]
      · rw [h, sub_self, mul_zero]
  constructor
  · constructor
    · intro h
      by_contra hne
      obtain ⟨q, hq, _⟩ := divide_rat ((d - b) * (c - a)) ((d - a) * (c - b))
        (fun h0 => hne (key.mp h0))
      have hq2 : cross_ratio a b c d = Except.ok q := hq
      rw [hq2] at h
      cases h
    · intro h
      exact divide_rat_zero _ _ (key.mpr h)
  · intro hne
    obtain ⟨q, hq, hmul⟩ := divide_rat ((d - b) * (c - a)) ((d - a) * (c - b))
      (fun h0 => hne (key.mp h0))
    exact ⟨q, hq, hq, hmul⟩

/-- C6. Over the rationals `fourth_point_from_cross_ratio a b c cratio` fails with
division by zero exactly when the denominator `cratio*(c-b) + (a-c)` is the zero
value; otherwise it succeeds with the value of
`divide (cratio*a*(c-b) + b*(a-c)) (cratio*(c-b) + (a-c))`, which multiplied by the
denominator gives the numerator. -/
theorem fourth_point_fails_iff (a b c cratio : Complex_without_sqrt ℚ) :
    (fourth_point_from_cross_ratio a b c cratio = Except.error Field_error.division_by_zero ↔
      add (multiply cratio (subtract c b)) (subtract a c) = mk0) ∧
    (add (multiply cratio (subtract c b)) (subtract a c) ≠ mk0 →
      ∃ q, fourth_point_from_cross_ratio a b c cratio = Except.ok q ∧
        divide (add (multiply (multiply cratio a) (subtract c b)) (multiply b (subtract a c)))
          (add (multiply cratio (subtract c b)) (subtract a c)) = Except.ok q ∧
        multiply q (add (multiply cratio (subtract c b)) (subtract a c))
          = add (multiply (multiply cratio a) (subtract c b)) (multiply b (subtract a c))) := by
  constructor
  · constructor
    · intro h
      by_contra hne
      obtain ⟨q, hq, _⟩ := divide_rat
        (add (multiply (multiply cratio a) (subtract c b)) (multiply b (subtract a c)))
        (add (multiply cratio (subtract c b)) (subtract a c)) hne
      have hq2 : fourth_point_from_cross_ratio a b c cratio = Except.ok q := hq
      rw [hq2] at h
      cases h
    · intro h
      exact divide_rat_zero _ _ h
  · intro hne
    obtain ⟨q, hq, hmul⟩ := divide_rat
      (add (multiply (multiply cratio a) (subtract c b)) (multiply b (subtract a c)))
      (add (multiply cratio (subtract c b)) (subtract a c)) hne
    exact ⟨q, hq, hq, hmul⟩

/-- Counterexample to C7: with `a = c = 1`, `b = 0`, `cratio = 1` over the
rationals the denominator `cratio*(c-b) + (a-c)` is `1`, not zero, and
`fourth_point_from_cross_ratio` does not fail: it returns `1`. -/
theorem fourth_point_a_eq_c_counterexample :
    ¬ (∀ a b c cratio : Complex_without_sqrt ℚ, a = c →
        add (multiply cratio (subtract c b)) (subtract a c) = mk0 ∧
        fourth_point_from_cross_ratio a b c cratio
          = Except.error Field_error.division_by_zero) ∧
    add (multiply (mk1 (1 : ℚ)) (subtract (mk1 1) (mk1 0))) (subtract (mk1 1) (mk1 1)) = mk1 1 ∧
    fourth_point_from_cross_ratio (mk1 (1 : ℚ)) (mk1 0) (mk1 1) (mk1 1) = Except.ok (mk1 1) := by
  have hv : fourth_point_from_cross_ratio (mk1 (1 : ℚ)) (mk1 0) (mk1 1) (mk1 1)
      = Except.ok (mk1 1) := by
    simp [fourth_point_from_cross_ratio, divide, field_div, multiply, add, subtract, conjugate,
      squared_modulus, mk1, mk2, real, imag]
  refine ⟨?_, ?_, hv⟩
  · intro h
    have h1 := (h (mk1 1) (mk1 0) (mk1 1) (mk1 1) rfl).2
    rw [hv] at h1
    cases h1
  · simp [multiply, add, subtract, mk1, mk2, real, imag]

/-- C7, amended. Over the rationals, when `a = c` the denominator
`cratio*(c-b) + (a-c)` equals `cratio*(c-b)`; `fourth_point_from_cross_ratio`
fails with division by zero exactly when `cratio` is the zero value or `c = b`,
and in every other case it succeeds and returns `a`. -/
theorem fourth_point_a_eq_c (a b c cratio : Complex_without_sqrt ℚ) (h : a = c) :
    add (multiply cratio (subtract c b)) (subtract a c) = multiply cratio (subtract c b) ∧
    (add (multiply cratio (subtract c b)) (subtract a c) = mk0 ↔ (cratio = mk0 ∨ c = b)) ∧
    (fourth_point_from_cross_ratio a b c cratio = Except.error Field_error.division_by_zero ↔
      (cratio = mk0 ∨ c = b)) ∧
    (¬ (cratio = mk0 ∨ c = b) → fourth_point_from_cross_ratio a b c cratio = Except.ok a) := by
  subst h
  have hden : cratio * (a - b) + (a - a) = cratio * (a - b) := by ring
  have key : cratio * (a - b) + (a - a) = 0 ↔ (cratio = 0 ∨ a = b) := by
    rw [hden]
    constructor
    · intro h
      rcases mul_eq_zero_rat _ _ h with h1 | h1
      · exact Or.inl h1
      · exact Or.inr (sub_eq_zero.mp h1)
    · rintro (h | h)
      · rw [h, zero_mul]
      · rw [h, sub_self, mul_zero]
  refine ⟨hden, key, ⟨?_, fun h => divide_rat_zero _ _ (key.mpr h)⟩, ?_⟩
  · intro h
    by_contra hne
    obtain ⟨q, hq, _⟩ := divide_rat (cratio * a * (a - b) + b * (a - a))
      (cratio * (a - b) + (a - a)) (fun h0 => hne (key.mp h0))
    have hq2 : fourth_point_from_cross_ratio a b a cratio = Except.ok q := hq
    rw [hq2] at h
    cases h
  · intro hne
    have hD0 : cratio * (a - b) + (a - a) ≠ 0 := fun h0 => hne (key.mp h0)
    obtain ⟨q, hq, hmul⟩ := divide_rat (cratio * a * (a - b) + b * (a - a))
      (cratio * (a - b) + (a - a)) hD0
    have hqa : q = a := by
      apply eq_of_mul_eq_mul_rat q a _ hD0
      linear_combination hmul
    have hq2 : fourth_point_from_cross_ratio a b a cratio = Except.ok q := hq
    rw [hq2, hqa]

/-- Witness of the amended C7 at `a = c = 1`, `b = 0`, `cratio = 1`. -/
theorem fourth_point_a_eq_c_witness :
    add (multiply (mk1 (1 : ℚ)) (subtract (mk1 1) (mk1 0))) (subtract (mk1 1) (mk1 1))
      = multiply (mk1 1) (subtract (mk1 1) (mk1 0)) ∧
    (add (multiply (mk1 (1 : ℚ)) (subtract (mk1 1) (mk1 0))) (subtract (mk1 1) (mk1 1)) = mk0
      ↔ (mk1 (1 : ℚ) = mk0 ∨ mk1 (1 : ℚ) = mk1 0)) ∧
    (fourth_point_from_cross_ratio (mk1 (1 : ℚ)) (mk1 0) (mk1 1) (mk1 1)
      = Except.error Field_error.division_by_zero ↔ (mk1 (1 : ℚ) = mk0 ∨ mk1 (1 : ℚ) = mk1 0)) ∧
    (¬ (mk1 (1 : ℚ) = mk0 ∨ mk1 (1 : ℚ) = mk1 0) →
      fourth_point_from_cross_ratio (mk1 (1 : ℚ)) (mk1 0) (mk1 1) (mk1 1) = Except.ok (mk1 1)) :=
  fourth_point_a_eq_c (mk1 1) (mk1 0) (mk1 1) (mk1 1) rfl

/-! ## Squared modulus -/

/-- C10. Over every field, `squared_modulus x` is the real part of
`multiply x (conjugate x)` and the imaginary part of that product is zero; over
the rationals `squared_modulus (3, 4)` is `25`. -/
theorem squared_modulus_correct (FT : Type*) [Field FT] (x : Complex_without_sqrt FT) :
    x.squared_modulus = (multiply x x.conjugate).real ∧
    (multiply x x.conjugate).imag = 0 ∧
    (mk2 (3 : ℚ) 4).squared_modulus = 25 := by
  refine ⟨?_, ?_, ?_⟩
  · simp only [squared_modulus, multiply, conjugate, mk2, real, imag]
    ring
  · simp only [multiply, conjugate, mk2, real, imag]
    ring
  · simp only [squared_modulus, mk2]
    norm_num

end CGAL

namespace CGAL
open Complex_without_sqrt
variable {FT : Type*}

/-! ## Text format -/

/-- Reading a line from a text that starts with characters free of the line
terminator, followed by a terminator: the line is those characters and the rest
is left unread. -/
theorem getline_extract_line (t rest : List Char) (h : '\n' ∉ t) :
    getline_extract (t ++ '\n' :: rest) = (t, rest, true) := by
  induction t with
  | nil => simp [getline_extract]
  | cons ch t ih =>
    have hch : ch ≠ '\n' := fun e => h (by simp [e])
    have ht : '\n' ∉ t := fun e => h (by simp [e])
    simp [getline_extract, hch, ih ht]

theorem getline_line (t rest line : List Char) (h : '\n' ∉ t) :
    getline (istream.of_text (t ++ '\n' :: rest)) line = (istream.of_text rest, t) := by
  simp [getline, istream.good, istream.of_text, getline_extract_line t rest h]

theorem serialize_eq (to_text : FT → List Char) (s : List Char) (z : Complex_without_sqrt FT) :
    serialize to_text s z = s ++ (to_text z._real ++ '\n' :: (to_text z._imag ++ '\n' :: [])) := by
  simp [serialize, real, imag]

/-- Counterexample to C8: the two-element field with the text format
`bit_line_to_text`, whose texts end with a line terminator, round-trips through
its text constructor, yet reading back the written value `(1, 1)` fails on the
first line and leaves the target `(0, 0)` as it was. -/
theorem serialize_deserialize_counterexample :
    (∀ v : ZMod 2, bit_line_from_text (bit_line_to_text v) = Except.ok v) ∧
    serialize bit_line_to_text [] (mk2 1 1) = ['1', '\n', '\n', '1', '\n', '\n'] ∧
    (deserialize bit_line_from_text
      (istream.of_text (serialize bit_line_to_text [] (mk2 1 1))) (mk2 0 0)).thrown
        = some Parse_error.malformed ∧
    (deserialize bit_line_from_text
      (istream.of_text (serialize bit_line_to_text [] (mk2 1 1))) (mk2 0 0)).z = mk2 0 0 ∧
    ¬ (∀ (to_text : ZMod 2 → List Char) (from_text : List Char → Except Parse_error (ZMod 2)),
        (∀ v, from_text (to_text v) = Except.ok v) →
        ∀ x z : Complex_without_sqrt (ZMod 2),
          (deserialize from_text (istream.of_text (serialize to_text [] x)) z).z = x) := by
  have hrt : ∀ v : ZMod 2, bit_line_from_text (bit_line_to_text v) = Except.ok v := by
    intro v
    fin_cases v <;> rfl
  have hz : (deserialize bit_line_from_text
      (istream.of_text (serialize bit_line_to_text [] (mk2 1 1))) (mk2 0 0)).z = mk2 0 0 := by
    decide
  refine ⟨hrt, by decide, by decide, hz, ?_⟩
  intro h
  have h1 := h bit_line_to_text bit_line_from_text hrt (mk2 1 1) (mk2 0 0)
  rw [hz] at h1
  exact absurd h1 (by decide)

/-- C8, amended. Serialization round trip: for every field whose text
representation round-trips and never contains a line terminator, and every
value `x`, writing `x` and then reading from the written text (whatever follows
it) into any target succeeds and leaves the target equal to `x`, with the stream
positioned after the two lines. -/
theorem serialize_deserialize (FT : Type*) [Field FT] [DecidableEq FT] {E : Type*}
    (to_text : FT → List Char) (from_text : List Char → Except E FT)
    (hrt : ∀ v, from_text (to_text v) = Except.ok v)
    (hnl : ∀ v, '\n' ∉ to_text v)
    (x z : Complex_without_sqrt FT) (rest : List Char) :
    (deserialize from_text (istream.of_text (serialize to_text [] x ++ rest)) z).thrown = none ∧
    (deserialize from_text (istream.of_text (serialize to_text [] x ++ rest)) z).z = x ∧
    equal (deserialize from_text (istream.of_text (serialize to_text [] x ++ rest)) z).z x
      = true ∧
    (deserialize from_text (istream.of_text (serialize to_text [] x ++ rest)) z).s
      = istream.of_text rest := by
  have hs : serialize to_text [] x ++ rest
      = to_text x._real ++ '\n' :: (to_text x._imag ++ '\n' :: rest) := by
    simp [serialize_eq]
  have hd : deserialize from_text (istream.of_text (serialize to_text [] x ++ rest)) z
      = { thrown := none, s := istream.of_text rest, z := x } := by
    rw [hs]
    simp only [deserialize, getline_line _ _ _ (hnl _), hrt]
    cases x
    simp [set_real, set_imag]
  rw [hd]
  simp [equal]

end CGAL

namespace CGAL
open Complex_without_sqrt
variable {FT : Type*}

/-- Witness of the amended C8: the two-element field with the one-character
texts `0` and `1`, the value `(1, 0)` read into the target `(0, 0)`. -/
theorem serialize_deserialize_witness :
    (∀ v : ZMod 2, (bit_from_text (bit_to_text v) : Except Parse_error (ZMod 2)) = Except.ok v) ∧
    (∀ v : ZMod 2, '\n' ∉ bit_to_text v) ∧
    (deserialize (bit_from_text : List Char → Except Parse_error (ZMod 2))
      (istream.of_text (serialize bit_to_text [] (mk2 1 0) ++ [])) (mk2 0 0)).thrown = none ∧
    (deserialize (bit_from_text : List Char → Except Parse_error (ZMod 2))
      (istream.of_text (serialize bit_to_text [] (mk2 1 0) ++ [])) (mk2 0 0)).z = mk2 1 0 ∧
    equal (deserialize (bit_from_text : List Char → Except Parse_error (ZMod 2))
      (istream.of_text (serialize bit_to_text [] (mk2 1 0) ++ [])) (mk2 0 0)).z (mk2 1 0)
        = true ∧
    (deserialize (bit_from_text : List Char → Except Parse_error (ZMod 2))
      (istream.of_text (serialize bit_to_text [] (mk2 1 0) ++ [])) (mk2 0 0)).s
        = istream.of_text [] :=
  have hrt : ∀ v : ZMod 2,
      (bit_from_text (bit_to_text v) : Except Parse_error (ZMod 2)) = Except.ok v := by
    intro v
    fin_cases v <;> rfl
  have hnl : ∀ v : ZMod 2, '\n' ∉ bit_to_text v := by
    intro v
    fin_cases v <;> decide
  ⟨hrt, hnl, serialize_deserialize (ZMod 2) bit_to_text bit_from_text hrt hnl (mk2 1 0) (mk2 0 0) []⟩

/-- Counterexample to C9: over the rationals, with the text constructor
`bit_from_text`, reading the two lines `1` and `x` into the target `(0, 0)` fails
on the second line and leaves the target as `(1, 0)`: its real component has
been replaced. -/
theorem deserialize_atomic_counterexample :
    (deserialize (bit_from_text : List Char → Except Parse_error ℚ)
      (istream.of_text ['1', '\n', 'x', '\n']) (mk2 0 0)).thrown = some Parse_error.malformed ∧
    (deserialize (bit_from_text : List Char → Except Parse_error ℚ)
      (istream.of_text ['1', '\n', 'x', '\n']) (mk2 0 0)).z = mk2 1 0 ∧
    (deserialize (bit_from_text : List Char → Except Parse_error ℚ)
      (istream.of_text ['1', '\n', 'x', '\n']) (mk2 0 0)).z ≠ mk2 0 0 := by
  refine ⟨by decide, by decide, by decide⟩

/-- C9, amended. What a read leaves in its target `z`. When the field's text
constructor rejects the first line, `z` is left exactly as it was. When it accepts
the first line as `r` and rejects the second, the read fails with `z` holding `r`
as its real component and its former imaginary component. When it accepts both
lines as `r` and `i`, the read succeeds with `z = (r, i)`. -/
theorem deserialize_target_state (FT : Type*) [Field FT] {E : Type*}
    (from_text : List Char → Except E FT) (s : istream) (z : Complex_without_sqrt FT) :
    (∀ e, from_text (getline s []).2 = Except.error e →
      (deserialize from_text s z).thrown = some e ∧ (deserialize from_text s z).z = z) ∧
    (∀ r e, from_text (getline s []).2 = Except.ok r →
      from_text (getline (getline s []).1 (getline s []).2).2 = Except.error e →
      (deserialize from_text s z).thrown = some e ∧
      (deserialize from_text s z).z = mk2 r z.imag) ∧
    (∀ r i, from_text (getline s []).2 = Except.ok r →
      from_text (getline (getline s []).1 (getline s []).2).2 = Except.ok i →
      (deserialize from_text s z).thrown = none ∧
      (deserialize from_text s z).z = mk2 r i) := by
  refine ⟨?_, ?_, ?_⟩
  · intro e h1
    simp [deserialize, h1]
  · intro r e h1 h2
    simp [deserialize, h1, h2, set_real, mk2, imag]
  · intro r i h1 h2
    simp [deserialize, h1, h2, set_real, set_imag, mk2]

end CGAL

namespace CGAL
open Complex_without_sqrt
variable {FT : Type*}

/-! ## Algebraic laws over every field -/

/-- C11. Conjugate homomorphism: over every field, the conjugate of a product is
the product of the conjugates. -/
theorem conjugate_multiply (FT : Type*) [Field FT] [DecidableEq FT]
    (x y : Complex_without_sqrt FT) :
    (multiply x y).conjugate = multiply x.conjugate y.conjugate ∧
    equal (multiply x y).conjugate (multiply x.conjugate y.conjugate) = true := by
  have h : (multiply x y).conjugate = multiply x.conjugate y.conjugate := by
    simp only [multiply, conjugate, mk2, real, imag, Complex_without_sqrt.mk.injEq]
    constructor <;> ring
  refine ⟨h, ?_⟩
  rw [h]
  simp [equal]

/-- C12. The implemented division agrees with its specified definition: over
every field, when `m2 = squared_modulus b` is not zero, `divide a b` returns
`multiply (a.real/m2, a.imag/m2) (conjugate b)`, `divide_spec a b` returns
`multiply a (conjugate b)` with both components divided by `m2`, and both are
`((a.real*b.real + a.imag*b.imag)/m2, (a.imag*b.real - a.real*b.imag)/m2)`. -/
theorem divide_refines_spec (FT : Type*) [Field FT] [DecidableEq FT]
    (a b : Complex_without_sqrt FT) (h : b.squared_modulus ≠ 0) :
    divide a b = Except.ok
      (multiply (mk2 (a.real / b.squared_modulus) (a.imag / b.squared_modulus)) b.conjugate) ∧
    divide_spec a b = Except.ok
      (mk2 ((multiply a b.conjugate).real / b.squared_modulus)
        ((multiply a b.conjugate).imag / b.squared_modulus)) ∧
    divide a b = divide_spec a b ∧
    divide a b = Except.ok
      (mk2 ((a.real * b.real + a.imag * b.imag) / b.squared_modulus)
        ((a.imag * b.real - a.real * b.imag) / b.squared_modulus)) := by
  have h1 := divide_of_sqmod_ne_zero a b h
  have h2 : divide_spec a b = Except.ok
      (mk2 ((multiply a b.conjugate).real / b.squared_modulus)
        ((multiply a b.conjugate).imag / b.squared_modulus)) := by
    simp [divide_spec, field_div, h]
  have h3 : multiply (mk2 (a._real / b.squared_modulus) (a._imag / b.squared_modulus))
      b.conjugate
      = mk2 ((a.real * b.real + a.imag * b.imag) / b.squared_modulus)
        ((a.imag * b.real - a.real * b.imag) / b.squared_modulus) := by
    simp only [multiply, conjugate, mk2, real, imag, Complex_without_sqrt.mk.injEq]
    constructor <;> field_simp
    ring
  have h4 : (mk2 ((multiply a b.conjugate).real / b.squared_modulus)
        ((multiply a b.conjugate).imag / b.squared_modulus) : Complex_without_sqrt FT)
      = mk2 ((a.real * b.real + a.imag * b.imag) / b.squared_modulus)
        ((a.imag * b.real - a.real * b.imag) / b.squared_modulus) := by
    simp only [multiply, conjugate, mk2, real, imag, Complex_without_sqrt.mk.injEq]
    constructor <;> field_simp
    ring
  refine ⟨h1, h2, ?_, ?_⟩
  · rw [h1, h2, h3, h4]
  · rw [h1, h3]

/-- Witness of C12 at `a = (1, 2)`, `b = (3, -1)` over the rationals, where
`m2 = 10`. -/
theorem divide_refines_spec_witness :
    (mk2 (3 : ℚ) (-1)).squared_modulus ≠ 0 ∧
    divide (mk2 (1 : ℚ) 2) (mk2 3 (-1)) = Except.ok
      (multiply (mk2 ((mk2 (1 : ℚ) 2).real / (mk2 (3 : ℚ) (-1)).squared_modulus)
        ((mk2 (1 : ℚ) 2).imag / (mk2 (3 : ℚ) (-1)).squared_modulus)) (mk2 3 (-1)).conjugate) ∧
    divide_spec (mk2 (1 : ℚ) 2) (mk2 3 (-1)) = Except.ok
      (mk2 ((multiply (mk2 (1 : ℚ) 2) (mk2 3 (-1)).conjugate).real
          / (mk2 (3 : ℚ) (-1)).squared_modulus)
        ((multiply (mk2 (1 : ℚ) 2) (mk2 3 (-1)).conjugate).imag
          / (mk2 (3 : ℚ) (-1)).squared_modulus)) ∧
    divide (mk2 (1 : ℚ) 2) (mk2 3 (-1)) = divide_spec (mk2 1 2) (mk2 3 (-1)) ∧
    divide (mk2 (1 : ℚ) 2) (mk2 3 (-1)) = Except.ok
      (mk2 (((mk2 (1 : ℚ) 2).real * (mk2 (3 : ℚ) (-1)).real
          + (mk2 (1 : ℚ) 2).imag * (mk2 (3 : ℚ) (-1)).imag) / (mk2 (3 : ℚ) (-1)).squared_modulus)
        (((mk2 (1 : ℚ) 2).imag * (mk2 (3 : ℚ) (-1)).real
          - (mk2 (1 : ℚ) 2).real * (mk2 (3 : ℚ) (-1)).imag)
          / (mk2 (3 : ℚ) (-1)).squared_modulus)) :=
  have h : (mk2 (3 : ℚ) (-1)).squared_modulus ≠ 0 := by
    simp only [squared_modulus, mk2]
    norm_num
  ⟨h, divide_refines_spec ℚ (mk2 1 2) (mk2 3 (-1)) h⟩

/-- C13. Over every field `multiply` is the standard complex product
`(r1*r2 - i1*i2, r1*i2 + i1*r2)`, and `(0, 1) * (0, 1) = (-1, 0)`; over the
rationals `(1, 2) * (3, -1) = (5, 5)`, `(1, 2) + (3, -1) = (4, 1)` and
`(1, 2) - (3, -1) = (-2, 3)`. -/
theorem multiply_standard (FT : Type*) [Field FT] (r1 i1 r2 i2 : FT) :
    multiply (mk2 r1 i1) (mk2 r2 i2) = mk2 (r1 * r2 - i1 * i2) (r1 * i2 + i1 * r2) ∧
    multiply (mk2 (0 : FT) 1) (mk2 0 1) = mk2 (-1) 0 ∧
    multiply (mk2 (1 : ℚ) 2) (mk2 3 (-1)) = mk2 5 5 ∧
    add (mk2 (1 : ℚ) 2) (mk2 3 (-1)) = mk2 4 1 ∧
    subtract (mk2 (1 : ℚ) 2) (mk2 3 (-1)) = mk2 (-2) 3 := by
  refine ⟨rfl, ?_, ?_, ?_, ?_⟩
  · simp [multiply, mk2, real, imag]
  · simp only [multiply, mk2, real, imag, Complex_without_sqrt.mk.injEq]
    constructor <;> norm_num
  · simp only [add, mk2, real, imag, Complex_without_sqrt.mk.injEq]
    constructor <;> norm_num
  · simp only [subtract, mk2, real, imag, Complex_without_sqrt.mk.injEq]
    constructor <;> norm_num

/-- C14. Additive inverse: over every field, `subtract (add x y) y = x`. -/
theorem subtract_add_cancel (FT : Type*) [Field FT] [DecidableEq FT]
    (x y : Complex_without_sqrt FT) :
    subtract (add x y) y = x ∧ equal (subtract (add x y) y) x = true := by
  have h : subtract (add x y) y = x := by
    cases x
    simp [subtract, add, mk2, real, imag]
  refine ⟨h, ?_⟩
  rw [h]
  simp [equal]

/-- C15. Multiplicative identity embedding: over every field, the construction
from the field's one is `(1, 0)`, and `multiply x` by it is `x`. -/
theorem multiply_one (FT : Type*) [Field FT] [DecidableEq FT] (x : Complex_without_sqrt FT) :
    (mk1 (1 : FT)) = mk2 1 0 ∧
    (∀ r : FT, (mk1 r).real = r ∧ (mk1 r).imag = 0) ∧
    multiply x (mk1 1) = x ∧ equal (multiply x (mk1 1)) x = true := by
  have h : multiply x (mk1 1) = x := by
    cases x
    simp [multiply, mk1, mk2, real, imag]
  refine ⟨rfl, fun r => ⟨rfl, rfl⟩, h, ?_⟩
  rw [h]
  simp [equal]

/-- C16. Equality is exact and componentwise: `equal a b` holds exactly when the
real components are equal and the imaginary components are equal, and
`not_equal a b` holds exactly when `equal a b` does not. -/
theorem equal_iff (FT : Type*) [DecidableEq FT] (a b : Complex_without_sqrt FT) :
    (equal a b = true ↔ (a.real = b.real ∧ a.imag = b.imag)) ∧
    (not_equal a b = true ↔ ¬ (equal a b = true)) ∧
    (equal a b = true ↔ a = b) := by
  refine ⟨?_, ?_, ?_⟩
  · simp [equal]
  · simp [not_equal]
  · rw [eq_iff_components]
    simp [equal, real, imag]

end CGAL

namespace CGAL
open Complex_without_sqrt
variable {FT : Type*}

/-! ## Fields in which a nonzero value has squared modulus zero -/

/-- C19. Division by a nonzero value can fail. Over the integers modulo 5 the value
`(1, 2)` is not `(0, 0)`, its squared modulus is zero, and `divide a (1, 2)` fails
with division by zero for every `a`. Over a field `FT`, the law "`divide x y`
succeeds and `multiply (divide x y) y = x` for every `y` other than `(0, 0)`"
holds exactly when `r*r + i*i = 0` forces `r = 0` and `i = 0`; it fails over the
integers modulo 5. -/
theorem divide_nonzero_can_fail (FT : Type*) [Field FT] [DecidableEq FT] :
    (mk2 (1 : ZMod 5) 2 ≠ mk2 0 0) ∧
    (mk2 (1 : ZMod 5) 2).squared_modulus = 0 ∧
    (∀ a : Complex_without_sqrt (ZMod 5),
      divide a (mk2 1 2) = Except.error Field_error.division_by_zero) ∧
    ¬ (∀ x y : Complex_without_sqrt (ZMod 5), y ≠ mk2 0 0 →
      ∃ q, divide x y = Except.ok q ∧ multiply q y = x) ∧
    ((∀ x y : Complex_without_sqrt FT, y ≠ mk2 0 0 →
        ∃ q, divide x y = Except.ok q ∧ multiply q y = x) ↔
      (∀ r i : FT, r * r + i * i = 0 → r = 0 ∧ i = 0)) := by
  have hne : mk2 (1 : ZMod 5) 2 ≠ mk2 0 0 := by decide
  have hsq : (mk2 (1 : ZMod 5) 2).squared_modulus = 0 := by decide
  have hfail : ∀ a : Complex_without_sqrt (ZMod 5),
      divide a (mk2 1 2) = Except.error Field_error.division_by_zero :=
    fun a => divide_of_sqmod_eq_zero a _ hsq
  refine ⟨hne, hsq, hfail, ?_, ?_, ?_⟩
  · intro h
    obtain ⟨q, hq, _⟩ := h (mk2 0 0) (mk2 1 2) hne
    rw [hfail] at hq
    cases hq
  · intro h r i hri
    by_contra hne2
    have hy : mk2 r i ≠ mk2 0 0 := by
      intro e
      simp only [mk2, Complex_without_sqrt.mk.injEq] at e
      exact hne2 e
    obtain ⟨q, hq, _⟩ := h (mk2 0 0) (mk2 r i) hy
    rw [divide_of_sqmod_eq_zero (mk2 0 0) (mk2 r i)
      (show (mk2 r i).squared_modulus = 0 from hri)] at hq
    cases hq
  · intro h x y hy
    have hm : y.squared_modulus ≠ 0 := by
      intro e
      apply hy
      obtain ⟨h1, h2⟩ := h y._real y._imag e
      cases y
      simp only [mk2, Complex_without_sqrt.mk.injEq]
      exact ⟨h1, h2⟩
    exact divide_mul_cancel x y hm

/-! ## Commutative ring laws -/

/-- C20. Over every field the complex values with `add`, `negate`, `multiply`,
zero `mk0 = (0, 0)` and one `mk1 1 = (1, 0)` satisfy the commutative-ring axioms:
`add` and `multiply` are associative and commutative, `mk0` and `mk1 1` are their
identities, `add x (negate x) = mk0`, `subtract x y = add x (negate y)`, and
`multiply` distributes over `add`. -/
theorem commutative_ring_laws (FT : Type*) [Field FT] (x y z : Complex_without_sqrt FT) :
    add (add x y) z = add x (add y z) ∧
    add x y = add y x ∧
    add x mk0 = x ∧ add mk0 x = x ∧
    add x (negate x) = mk0 ∧ add (negate x) x = mk0 ∧
    subtract x y = add x (negate y) ∧
    multiply (multiply x y) z = multiply x (multiply y z) ∧
    multiply x y = multiply y x ∧
    multiply x (mk1 1) = x ∧ multiply (mk1 1) x = x ∧
    multiply x (add y z) = add (multiply x y) (multiply x z) ∧
    multiply (add x y) z = add (multiply x z) (multiply y z) ∧
    (mk0 : Complex_without_sqrt FT) = mk2 0 0 ∧ (mk1 1 : Complex_without_sqrt FT) = mk2 1 0 := by
  refine ⟨add_assoc x y z, add_comm x y, add_zero x, zero_add x, add_neg_cancel x,
    neg_add_cancel x, sub_eq_add_neg x y, mul_assoc x y z, mul_comm x y, mul_one x, one_mul x,
    mul_add x y z, add_mul x y z, rfl, rfl⟩

end CGAL

namespace CGAL
open Complex_without_sqrt

/-! ## Invariance of the cross ratio under Möbius maps -/

/-- Over the rationals, a Möbius map with nonzero denominator at `z` succeeds
there, and its value `w` satisfies `w * (r*z + s) = p*z + q`. -/
theorem mobius_rat (p q r s z : Complex_without_sqrt ℚ) (h : r * z + s ≠ 0) :
    ∃ w, mobius p q r s z = Except.ok w ∧ w * (r * z + s) = p * z + q :=
  divide_rat (p * z + q) (r * z + s) h

/-- The difference of two values of a Möbius map, cleared of denominators. -/
theorem mobius_sub (p q r s x y wx wy : Complex_without_sqrt ℚ)
    (hx : wx * (r * x + s) = p * x + q) (hy : wy * (r * y + s) = p * y + q) :
    (wx - wy) * ((r * x + s) * (r * y + s)) = (p * s - q * r) * (x - y) := by
  linear_combination (r * y + s) * hx - (r * x + s) * hy

/-- C18. The cross ratio is preserved under Möbius transformations over the
rationals: when `p*s - q*r` is not zero, `d ≠ a`, `c ≠ b`, and `r*z + s` is not
zero at each of `a`, `b`, `c`, `d`, the map `M(z) = (p*z + q) / (r*z + s)`
succeeds at the four points, and `cross_ratio (M a) (M b) (M c) (M d)` succeeds
with the same value as `cross_ratio a b c d`. -/
theorem cross_ratio_mobius (p q r s a b c d : Complex_without_sqrt ℚ)
    (hdet : subtract (multiply p s) (multiply q r) ≠ mk0)
    (hda : d ≠ a) (hcb : c ≠ b)
    (ha : add (multiply r a) s ≠ mk0) (hb : add (multiply r b) s ≠ mk0)
    (hc : add (multiply r c) s ≠ mk0) (hd : add (multiply r d) s ≠ mk0) :
    ∃ ma mb mc md v,
      mobius p q r s a = Except.ok ma ∧ mobius p q r s b = Except.ok mb ∧
      mobius p q r s c = Except.ok mc ∧ mobius p q r s d = Except.ok md ∧
      cross_ratio ma mb mc md = Except.ok v ∧ cross_ratio a b c d = Except.ok v := by
  have hdet0 : p * s - q * r ≠ 0 := hdet
  have hA : r * a + s ≠ 0 := ha
  have hB : r * b + s ≠ 0 := hb
  have hC : r * c + s ≠ 0 := hc
  have hD : r * d + s ≠ 0 := hd
  have hda0 : d - a ≠ 0 := sub_ne_zero.mpr hda
  have hcb0 : c - b ≠ 0 := sub_ne_zero.mpr hcb
  obtain ⟨ma, hma, ea⟩ := mobius_rat p q r s a hA
  obtain ⟨mb, hmb, eb⟩ := mobius_rat p q r s b hB
  obtain ⟨mc, hmc, ec⟩ := mobius_rat p q r s c hC
  obtain ⟨md, hmd, ed⟩ := mobius_rat p q r s d hD
  have e1 := mobius_sub p q r s d a md ma ed ea
  have e2 := mobius_sub p q r s c b mc mb ec eb
  have e3 := mobius_sub p q r s d b md mb ed eb
  have e4 := mobius_sub p q r s c a mc ma ec ea
  have hmda : md - ma ≠ 0 := by
    intro h
    rw [h, zero_mul] at e1
    exact mul_ne_zero_rat _ _ hdet0 hda0 e1.symm
  have hmcb : mc - mb ≠ 0 := by
    intro h
    rw [h, zero_mul] at e2
    exact mul_ne_zero_rat _ _ hdet0 hcb0 e2.symm
  obtain ⟨v, hv, h1⟩ := divide_rat ((d - b) * (c - a)) ((d - a) * (c - b))
    (mul_ne_zero_rat _ _ hda0 hcb0)
  obtain ⟨w, hw, h2⟩ := divide_rat ((md - mb) * (mc - ma)) ((md - ma) * (mc - mb))
    (mul_ne_zero_rat _ _ hmda hmcb)
  have hK : (p * s - q * r) * (p * s - q * r) * ((d - a) * (c - b)) ≠ 0 :=
    mul_ne_zero_rat _ _ (mul_ne_zero_rat _ _ hdet0 hdet0) (mul_ne_zero_rat _ _ hda0 hcb0)
  have hwv : w = v := by
    apply eq_of_mul_eq_mul_rat w v _ hK
    linear_combination
      (-w) * (e1 * ((mc - mb) * ((r * c + s) * (r * b + s)))
        + ((p * s - q * r) * (d - a)) * e2)
      + ((r * a + s) * (r * b + s) * (r * c + s) * (r * d + s)) * h2
      + (e3 * ((mc - ma) * ((r * c + s) * (r * a + s)))
        + ((p * s - q * r) * (d - b)) * e4)
      - ((p * s - q * r) * (p * s - q * r)) * h1
  refine ⟨ma, mb, mc, md, v, hma, hmb, hmc, hmd, ?_, hv⟩
  have hw2 : cross_ratio ma mb mc md = Except.ok w := hw
  rw [hw2, hwv]

end CGAL

namespace CGAL
open Complex_without_sqrt

/-- Witness of C18: `M(z) = (2z + 1) / (z + 3)` at `a = 0`, `b = 1`, `c = 2`,
`d = 3` over the rationals. -/
theorem cross_ratio_mobius_witness :
    ∃ ma mb mc md v,
      mobius (mk1 (2 : ℚ)) (mk1 1) (mk1 1) (mk1 3) (mk1 0) = Except.ok ma ∧
      mobius (mk1 (2 : ℚ)) (mk1 1) (mk1 1) (mk1 3) (mk1 1) = Except.ok mb ∧
      mobius (mk1 (2 : ℚ)) (mk1 1) (mk1 1) (mk1 3) (mk1 2) = Except.ok mc ∧
      mobius (mk1 (2 : ℚ)) (mk1 1) (mk1 1) (mk1 3) (mk1 3) = Except.ok md ∧
      cross_ratio ma mb mc md = Except.ok v ∧
      cross_ratio (mk1 (0 : ℚ)) (mk1 1) (mk1 2) (mk1 3) = Except.ok v :=
  cross_ratio_mobius (mk1 2) (mk1 1) (mk1 1) (mk1 3) (mk1 0) (mk1 1) (mk1 2) (mk1 3)
    (by simp [add, multiply, subtract, mk0, mk1, mk2, real, imag]; norm_num)
    (by decide) (by decide)
    (by simp [add, multiply, subtract, mk0, mk1, mk2, real, imag])
    (by simp [add, multiply, subtract, mk0, mk1, mk2, real, imag]; norm_num)
    (by simp [add, multiply, subtract, mk0, mk1, mk2, real, imag]; norm_num)
    (by simp [add, multiply, subtract, mk0, mk1, mk2, real, imag])

end CGAL

namespace CGAL
open Complex_without_sqrt
variable {FT : Type*}

/-! ## The operations as expressions over the field's operations -/

/-- A complex-valued expression has the value `x` exactly when its components
have the values of the components of `x`. -/
theorem expr_eval_ok [Field FT] [DecidableEq FT] (env : Nat → FT) (z : Complex_expr)
    (x : Complex_without_sqrt FT)
    (hre : z.re.eval env = Except.ok x._real) (him : z.im.eval env = Except.ok x._imag) :
    z.eval env = Except.ok x := by
  cases x
  simp [Complex_expr.eval, apply2, hre, him, mk2]

theorem expr_eval_components [Field FT] [DecidableEq FT] (env : Nat → FT)
    (z : Complex_expr) (x : Complex_without_sqrt FT) (h : z.eval env = Except.ok x) :
    z.re.eval env = Except.ok x._real ∧ z.im.eval env = Except.ok x._imag := by
  unfold Complex_expr.eval at h
  cases hre : z.re.eval env with
  | error e => rw [hre] at h; simp [apply2] at h
  | ok r =>
    cases him : z.im.eval env with
    | error e => rw [hre, him] at h; simp [apply2] at h
    | ok i =>
      rw [hre, him] at h
      simp only [apply2, Except.ok.injEq] at h
      rw [← h]
      simp [mk2]

theorem expr_eval_arg [Field FT] [DecidableEq FT] (env : Nat → FT) (k : Nat) :
    (Complex_expr.arg k).eval env = Except.ok (mk2 (env (2 * k)) (env (2 * k + 1))) := by
  simp [Complex_expr.eval, Complex_expr.arg, Field_expr.eval, apply2]

theorem expr_eval_add [Field FT] [DecidableEq FT] (env : Nat → FT)
    (X Y : Complex_expr) (x y : Complex_without_sqrt FT)
    (hx : X.eval env = Except.ok x) (hy : Y.eval env = Except.ok y) :
    (X.add Y).eval env = Except.ok (add x y) := by
  obtain ⟨h1, h2⟩ := expr_eval_components env X x hx
  obtain ⟨h3, h4⟩ := expr_eval_components env Y y hy
  simp [Complex_expr.eval, Complex_expr.add, Field_expr.eval, apply2, h1, h2, h3, h4, add,
    real, imag]

theorem expr_eval_subtract [Field FT] [DecidableEq FT] (env : Nat → FT)
    (X Y : Complex_expr) (x y : Complex_without_sqrt FT)
    (hx : X.eval env = Except.ok x) (hy : Y.eval env = Except.ok y) :
    (X.subtract Y).eval env = Except.ok (subtract x y) := by
  obtain ⟨h1, h2⟩ := expr_eval_components env X x hx
  obtain ⟨h3, h4⟩ := expr_eval_components env Y y hy
  simp [Complex_expr.eval, Complex_expr.subtract, Field_expr.eval, apply2, h1, h2, h3, h4,
    subtract, real, imag]

theorem expr_eval_multiply [Field FT] [DecidableEq FT] (env : Nat → FT)
    (X Y : Complex_expr) (x y : Complex_without_sqrt FT)
    (hx : X.eval env = Except.ok x) (hy : Y.eval env = Except.ok y) :
    (X.multiply Y).eval env = Except.ok (multiply x y) := by
  obtain ⟨h1, h2⟩ := expr_eval_components env X x hx
  obtain ⟨h3, h4⟩ := expr_eval_components env Y y hy
  simp [Complex_expr.eval, Complex_expr.multiply, Field_expr.eval, apply2, h1, h2, h3, h4,
    multiply, real, imag]

theorem expr_eval_divide [Field FT] [DecidableEq FT] (env : Nat → FT)
    (X Y : Complex_expr) (x y : Complex_without_sqrt FT)
    (hx : X.eval env = Except.ok x) (hy : Y.eval env = Except.ok y) :
    (X.divide Y).eval env = divide x y := by
  obtain ⟨h1, h2⟩ := expr_eval_components env X x hx
  obtain ⟨h3, h4⟩ := expr_eval_components env Y y hy
  by_cases hm : y._real * y._real + y._imag * y._imag = 0
  · simp [Complex_expr.eval, Complex_expr.divide, Complex_expr.multiply,
      Complex_expr.conjugate, Complex_expr.squared_modulus, Field_expr.eval, apply2, apply1,
      h1, h2, h3, h4, divide, field_div, squared_modulus, hm]
  · simp [Complex_expr.eval, Complex_expr.divide, Complex_expr.multiply,
      Complex_expr.conjugate, Complex_expr.squared_modulus, Field_expr.eval, apply2, apply1,
      h1, h2, h3, h4, divide, field_div, squared_modulus, hm, multiply, conjugate, mk2,
      real, imag]

end CGAL

namespace CGAL
open Complex_without_sqrt
variable {FT : Type*}

theorem expr_eval_arg_of [Field FT] [DecidableEq FT] (a b c d : Complex_without_sqrt FT)
    (r i : FT) :
    (Complex_expr.arg 0).eval (env_of a b c d r i) = Except.ok a ∧
    (Complex_expr.arg 1).eval (env_of a b c d r i) = Except.ok b ∧
    (Complex_expr.arg 2).eval (env_of a b c d r i) = Except.ok c ∧
    (Complex_expr.arg 3).eval (env_of a b c d r i) = Except.ok d := by
  refine ⟨?_, ?_, ?_, ?_⟩ <;> rw [expr_eval_arg] <;> rfl

/-- C17. No operation of the core needs more of the field than its zero, addition,
subtraction, negation, multiplication, division and equality: over every field
`FT`, each of construction, the setters, the accessors, `squared_modulus`,
`conjugate`, `add`, `subtract`, `negate`, `multiply`, `divide`, `equal`,
`not_equal`, `cross_ratio` and `fourth_point_from_cross_ratio` is the value of an
expression whose only nodes are those field operations (`Field_expr`,
`Field_test`), in which no square root, ordering or absolute value exists. -/
theorem operations_are_field_expressions (FT : Type*) [Field FT] [DecidableEq FT]
    (a b c d : Complex_without_sqrt FT) (r i : FT) :
    (Complex_expr.mk Field_expr.zero Field_expr.zero).eval (env_of a b c d r i)
      = Except.ok mk0 ∧
    (Complex_expr.mk (Field_expr.var 8) Field_expr.zero).eval (env_of a b c d r i)
      = Except.ok (mk1 r) ∧
    (Complex_expr.mk (Field_expr.var 8) (Field_expr.var 9)).eval (env_of a b c d r i)
      = Except.ok (mk2 r i) ∧
    (Complex_expr.mk (Field_expr.var 8) (Complex_expr.arg 0).im).eval (env_of a b c d r i)
      = Except.ok (a.set_real r) ∧
    (Complex_expr.mk (Complex_expr.arg 0).re (Field_expr.var 9)).eval (env_of a b c d r i)
      = Except.ok (a.set_imag i) ∧
    (Complex_expr.arg 0).re.eval (env_of a b c d r i) = Except.ok a.real ∧
    (Complex_expr.arg 0).im.eval (env_of a b c d r i) = Except.ok a.imag ∧
    (Complex_expr.arg 0).squared_modulus.eval (env_of a b c d r i)
      = Except.ok a.squared_modulus ∧
    (Complex_expr.arg 0).conjugate.eval (env_of a b c d r i) = Except.ok a.conjugate ∧
    ((Complex_expr.arg 0).add (Complex_expr.arg 1)).eval (env_of a b c d r i)
      = Except.ok (add a b) ∧
    ((Complex_expr.arg 0).subtract (Complex_expr.arg 1)).eval (env_of a b c d r i)
      = Except.ok (subtract a b) ∧
    (Complex_expr.arg 0).negate.eval (env_of a b c d r i) = Except.ok (negate a) ∧
    ((Complex_expr.arg 0).multiply (Complex_expr.arg 1)).eval (env_of a b c d r i)
      = Except.ok (multiply a b) ∧
    ((Complex_expr.arg 0).divide (Complex_expr.arg 1)).eval (env_of a b c d r i)
      = divide a b ∧
    ((Complex_expr.arg 0).equal (Complex_expr.arg 1)).eval (env_of a b c d r i)
      = Except.ok (equal a b) ∧
    ((Complex_expr.arg 0).not_equal (Complex_expr.arg 1)).eval (env_of a b c d r i)
      = Except.ok (not_equal a b) ∧
    (Complex_expr.cross_ratio (Complex_expr.arg 0) (Complex_expr.arg 1) (Complex_expr.arg 2)
      (Complex_expr.arg 3)).eval (env_of a b c d r i) = cross_ratio a b c d ∧
    (Complex_expr.fourth_point_from_cross_ratio (Complex_expr.arg 0) (Complex_expr.arg 1)
      (Complex_expr.arg 2) (Complex_expr.arg 3)).eval (env_of a b c d r i)
      = fourth_point_from_cross_ratio a b c d := by
  obtain ⟨hA, hB, hC, hD⟩ := expr_eval_arg_of a b c d r i
  refine ⟨?_, ?_, ?_, ?_, ?_, ?_, ?_, ?_, ?_, ?_, ?_, ?_, ?_, ?_, ?_, ?_, ?_, ?_⟩
  · simp [Complex_expr.eval, Field_expr.eval, apply2, mk0, mk2]
  · simp [Complex_expr.eval, Field_expr.eval, apply2, mk1, mk2, env_of]
  · simp [Complex_expr.eval, Field_expr.eval, apply2, mk2, env_of]
  · simp [Complex_expr.eval, Complex_expr.arg, Field_expr.eval, apply2, mk2, env_of, set_real]
  · simp [Complex_expr.eval, Complex_expr.arg, Field_expr.eval, apply2, mk2, env_of, set_imag]
  · simp [Complex_expr.arg, Field_expr.eval, env_of, real]
  · simp [Complex_expr.arg, Field_expr.eval, env_of, imag]
  · simp [Complex_expr.squared_modulus, Complex_expr.arg, Field_expr.eval, apply2, env_of,
      squared_modulus]
  · simp [Complex_expr.eval, Complex_expr.conjugate, Complex_expr.arg, Field_expr.eval, apply2,
      apply1, env_of, conjugate]
  · exact expr_eval_add _ _ _ a b hA hB
  · exact expr_eval_subtract _ _ _ a b hA hB
  · simp [Complex_expr.eval, Complex_expr.negate, Complex_expr.arg, Field_expr.eval, apply2,
      apply1, env_of, negate]
  · exact expr_eval_multiply _ _ _ a b hA hB
  · exact expr_eval_divide _ _ _ a b hA hB
  · simp [Complex_expr.equal, Complex_expr.arg, Field_test.eval, Field_expr.eval, apply2,
      env_of, equal, real, imag]
  · simp [Complex_expr.not_equal, Complex_expr.equal, Complex_expr.arg, Field_test.eval,
      Field_expr.eval, apply2, apply1, env_of, not_equal, equal, real, imag]
  · exact expr_eval_divide _ _ _ _ _
      (expr_eval_multiply _ _ _ _ _ (expr_eval_subtract _ _ _ d b hD hB)
        (expr_eval_subtract _ _ _ c a hC hA))
      (expr_eval_multiply _ _ _ _ _ (expr_eval_subtract _ _ _ d a hD hA)
        (expr_eval_subtract _ _ _ c b hC hB))
  · exact expr_eval_divide _ _ _ _ _
      (expr_eval_add _ _ _ _ _
        (expr_eval_multiply _ _ _ _ _ (expr_eval_multiply _ _ _ d a hD hA)
          (expr_eval_subtract _ _ _ c b hC hB))
        (expr_eval_multiply _ _ _ b _ hB (expr_eval_subtract _ _ _ a c hA hC)))
      (expr_eval_add _ _ _ _ _
        (expr_eval_multiply _ _ _ d _ hD (expr_eval_subtract _ _ _ c b hC hB))
        (expr_eval_subtract _ _ _ a c hA hC))

end CGAL
